import Mathlib

/-!
Verification of the tick engine of django-toosimple-q
(`django_toosimple_q/management/commands/worker.py`).

The store is modelled as lists of execution records, timestamps as natural
numbers, and one tick as a pure function from store to store.  Parts of the
repository that the worker calls but that are outside the given source
(the registry method `for_queue`, `Task.execute`, `Schedule.execute`) are
modelled from the specification and marked as such in their doc comments.
-/

deriving instance DecidableEq for Except

namespace ToosimpleQ

/-- Execution states of a `TaskExec` row (`TaskExec.States`). -/
inductive TaskState
  | queued
  | sleeping
  | processing
  | succeeded
  | failed
  | invalid
deriving DecidableEq

/-- Execution states of a `ScheduleExec` row (`ScheduleExec.States`). -/
inductive ScheduleState
  | active
  | invalid
deriving DecidableEq

/-- A persisted `TaskExec` row.  `id` models the database primary key,
timestamps are naturals, `started` is set when the row is claimed,
`result` and `error` are the completion payload. -/
structure TaskExec where
  id : Nat
  task_name : String
  state : TaskState
  due : Nat
  created : Nat
  started : Option Nat := none
  result : Option String := none
  error : Option String := none
deriving DecidableEq

/-- A persisted `ScheduleExec` bookkeeping row. -/
structure ScheduleExec where
  name : String
  state : ScheduleState
  lastRun : Option Nat := none
  nextDue : Option Nat := none
deriving DecidableEq

/-- Modelled from the spec: the Task definition class is not under the given
source.  A registry entry holds `name`, `priority` (higher is more urgent),
`queue`, and the callable; the callable is modelled by its outcome `run`,
either a result or a failure detail. -/
structure TaskDef where
  name : String
  priority : Int
  queue : String
  run : Except String String
deriving DecidableEq

/-- Modelled from the spec: the Schedule definition class is not under the
given source.  The recurrence rule is modelled as a first due instant plus a
fixed interval; `taskName` is the task the schedule enqueues. -/
structure ScheduleDef where
  name : String
  queue : String
  taskName : String
  firstDue : Nat
  interval : Nat
deriving DecidableEq

/-- The durable store: `TaskExec` rows, `ScheduleExec` rows, and the next
fresh primary key for inserted task rows. -/
structure Store where
  tasks : List TaskExec
  schedules : List ScheduleExec
  nextId : Nat
deriving DecidableEq

/-- Worker queue options: inclusion list `--queue` or exclusion list
`--exclude_queue` (mutually exclusive; `none` means not provided). -/
structure WorkerOpts where
  queues : Option (List String) := none
  excluded_queues : Option (List String) := none
deriving DecidableEq

/-- The names registered in the tasks registry (`tasks_registry.keys()`). -/
def taskKeys (reg : List TaskDef) : List String :=
  reg.map (fun t => t.name)

/-- The names registered in the schedules registry
(`schedules_registry.keys()`). -/
def scheduleKeys (sreg : List ScheduleDef) : List String :=
  sreg.map (fun s => s.name)

/-- Modelled from the spec: `Registry.for_queue` is not under the given
source.  Filter definitions by queue inclusion or exclusion: with an
inclusion list keep the definitions whose queue is listed, with an exclusion
list keep those whose queue is not listed, otherwise keep all. -/
def forQueueT (reg : List TaskDef) (o : WorkerOpts) : List TaskDef :=
  match o.queues with
  | some qs => reg.filter (fun t => decide (t.queue ∈ qs))
  | none =>
    match o.excluded_queues with
    | some xs => reg.filter (fun t => decide (t.queue ∉ xs))
    | none => reg

/-- Modelled from the spec: `Registry.for_queue` for the schedules registry,
same filtering as for tasks. -/
def forQueueS (sreg : List ScheduleDef) (o : WorkerOpts) : List ScheduleDef :=
  match o.queues with
  | some qs => sreg.filter (fun s => decide (s.queue ∈ qs))
  | none =>
    match o.excluded_queues with
    | some xs => sreg.filter (fun s => decide (s.queue ∉ xs))
    | none => sreg

/-- Worker lines 103-110: `ScheduleExec.objects.exclude(state=INVALID)
.exclude(name__in=schedules_registry.keys()).update(state=INVALID)`. -/
def invalidateOrphanSchedules (sreg : List ScheduleDef) (rows : List ScheduleExec) :
    List ScheduleExec :=
  rows.map fun r =>
    if r.state ≠ ScheduleState.invalid ∧ r.name ∉ scheduleKeys sreg then
      { r with state := ScheduleState.invalid }
    else r

/-- Worker lines 113-120: `TaskExec.objects.exclude(state=INVALID)
.exclude(task_name__in=tasks_registry.keys()).update(state=INVALID)`. -/
def invalidateOrphanTasks (reg : List TaskDef) (rows : List TaskExec) :
    List TaskExec :=
  rows.map fun r =>
    if r.state ≠ TaskState.invalid ∧ r.task_name ∉ taskKeys reg then
      { r with state := TaskState.invalid }
    else r

/-- Worker lines 130-132: `TaskExec.objects.filter(state=SLEEPING)
.filter(due__lte=now).update(state=QUEUED)`. -/
def wakeTasks (now : Nat) (rows : List TaskExec) : List TaskExec :=
  rows.map fun r =>
    if r.state = TaskState.sleeping ∧ r.due ≤ now then
      { r with state := TaskState.queued }
    else r

/-- Modelled from the spec: `Schedule.execute` is not under the given source.
Using the persisted bookkeeping row and the current time, decide whether the
next due instant has arrived; if due, create a new QUEUED `TaskExec` bound to
the associated task with `due` and `created` set to now, advance the
bookkeeping to the next instant, and report that the schedule fired.  A
bookkeeping row is created lazily on first sight. -/
def scheduleExecute (sd : ScheduleDef) (now : Nat) (s : Store) : Store × Bool :=
  match s.schedules.find? (fun r => r.name == sd.name) with
  | none =>
    if sd.firstDue ≤ now then
      ({ tasks := s.tasks ++
            [{ id := s.nextId, task_name := sd.taskName,
               state := TaskState.queued, due := now, created := now }],
         schedules := s.schedules ++
            [{ name := sd.name, state := ScheduleState.active,
               lastRun := some now, nextDue := some (now + sd.interval) }],
         nextId := s.nextId + 1 }, true)
    else
      ({ s with schedules := s.schedules ++
            [{ name := sd.name, state := ScheduleState.active,
               nextDue := some sd.firstDue }] }, false)
  | some r =>
    if r.state = ScheduleState.active ∧ r.nextDue.getD sd.firstDue ≤ now then
      ({ tasks := s.tasks ++
            [{ id := s.nextId, task_name := sd.taskName,
               state := TaskState.queued, due := now, created := now }],
         schedules := s.schedules.map (fun x =>
            if x.name == sd.name then
              { x with lastRun := some now, nextDue := some (now + sd.interval) }
            else x),
         nextId := s.nextId + 1 }, true)
    else (s, false)

/-- Worker lines 122-127: evaluate every schedule definition passing the
queue filter, folding the fired flags with or into `did_something`. -/
def evaluateSchedules (sreg : List ScheduleDef) (o : WorkerOpts) (now : Nat)
    (s : Store) : Store × Bool :=
  (forQueueS sreg o).foldl
    (fun acc sd =>
      let step := scheduleExecute sd now acc.1
      (step.1, acc.2 || step.2))
    (s, false)

/-- Worker lines 136-142: the `Case(*(When(task_name=t.name,
then=Value(-t.priority)) for t in registry), default=Value(0))` ordering
clause; the first matching branch wins, an unknown name yields 0. -/
def orderByPriority (reg : List TaskDef) (n : String) : Int :=
  match reg.find? (fun t => t.name == n) with
  | some t => -t.priority
  | none => 0

/-- The full ordering key of line 146: negated priority, then `due`, then
`created` (all ascending, so priority itself is descending). -/
def claimKey (reg : List TaskDef) (r : TaskExec) : Int × Nat × Nat :=
  (orderByPriority reg r.task_name, r.due, r.created)

/-- Lexicographic comparison of ordering keys, as a boolean total preorder. -/
def keyLE : Int × Nat × Nat → Int × Nat × Nat → Bool
  | (p, d, c), (q, e, k) =>
    decide (p < q) || (decide (p = q) &&
      (decide (d < e) || (decide (d = e) && decide (c ≤ k))))

/-- The row ordering of line 146 as a relation on rows: compare the full
ordering keys lexicographically. -/
def claimLE (reg : List TaskDef) : TaskExec → TaskExec → Prop :=
  fun a b => keyLE (claimKey reg a) (claimKey reg b) = true

instance (reg : List TaskDef) : DecidableRel (claimLE reg) :=
  fun _ _ => instDecidableEqBool _ _

/-- Worker lines 144-145: the rows the claimer considers, `state = QUEUED`
and `task_name` among the queue-filtered registered definitions. -/
def eligibleTasks (reg : List TaskDef) (o : WorkerOpts) (rows : List TaskExec) :
    List TaskExec :=
  rows.filter fun r =>
    decide (r.state = TaskState.queued ∧
      r.task_name ∈ (forQueueT reg o).map (fun t => t.name))

/-- Worker lines 144-152: order the eligible rows by the priority clause,
`due`, `created`, take the first, and persist `started := now` and
`state := PROCESSING` on it; with no eligible row nothing changes. -/
def claimTask (reg : List TaskDef) (o : WorkerOpts) (now : Nat)
    (rows : List TaskExec) : List TaskExec × Option TaskExec :=
  let sorted := (eligibleTasks reg o rows).insertionSort (claimLE reg)
  match sorted.head? with
  | none => (rows, none)
  | some r =>
    (rows.map (fun x =>
        if x.id = r.id then
          { x with started := some now, state := TaskState.processing }
        else x),
     some { r with started := some now, state := TaskState.processing })

/-- Modelled from the spec: `Task.execute` is not under the given source.
Invoke the callable of the claimed row; on normal return store the result
and set SUCCEEDED, on failure store the failure detail and set FAILED; the
failure never propagates.  Returns that execution happened (always true). -/
def taskExecute (td : TaskDef) (claimed : TaskExec) (rows : List TaskExec) :
    List TaskExec × Bool :=
  match td.run with
  | Except.ok v =>
    (rows.map (fun x =>
        if x.id = claimed.id then
          { x with state := TaskState.succeeded, result := some v }
        else x), true)
  | Except.error e =>
    (rows.map (fun x =>
        if x.id = claimed.id then
          { x with state := TaskState.failed, error := some e }
        else x), true)

/-- The outcome of one tick: the new store, the `did_something` flag the
tick returns, the row claimed this tick if any, and the names of the task
callables invoked. -/
structure TickResult where
  store : Store
  didSomething : Bool
  claimed : Option TaskExec
  executed : List String
deriving DecidableEq

/-- The store after the Orphan Reconciler phase (worker lines 102-120):
orphaned schedules are invalidated, then orphaned tasks. -/
def storeAfterOrphans (reg : List TaskDef) (sreg : List ScheduleDef)
    (s : Store) : Store :=
  { s with
    schedules := invalidateOrphanSchedules sreg s.schedules,
    tasks := invalidateOrphanTasks reg s.tasks }

/-- Worker lines 97-158, `Command.tick`: orphan reconciliation, schedule
evaluation, bulk wake, claim of at most one task, execution of the claimed
task; returns whether anything happened. -/
def tick (reg : List TaskDef) (sreg : List ScheduleDef) (o : WorkerOpts)
    (now : Nat) (s : Store) : TickResult :=
  let s1 := storeAfterOrphans reg sreg s
  let evald := evaluateSchedules sreg o now s1
  let s2 := evald.1
  let schedFired := evald.2
  let s3 : Store := { s2 with tasks := wakeTasks now s2.tasks }
  let claim := claimTask reg o now s3.tasks
  let s4 : Store := { s3 with tasks := claim.1 }
  match claim.2 with
  | none =>
    { store := s4, didSomething := schedFired, claimed := none, executed := [] }
  | some r =>
    match reg.find? (fun t => t.name == r.task_name) with
    | some td =>
      let ex := taskExecute td r s4.tasks
      { store := { s4 with tasks := ex.1 },
        didSomething := schedFired || ex.2,
        claimed := some r, executed := [r.task_name] }
    | none =>
      -- unreachable: a claimed row always carries a registered name
      { store := s4, didSomething := schedFired,
        claimed := some r, executed := [] }

/-- Worker termination options: `--once` and `--until_done`. -/
structure LoopOpts where
  once : Bool
  until_done : Bool
deriving DecidableEq

/-- Worker lines 82-88: whether the outer loop breaks after a tick that
returned `didSomething`; `--once` breaks unconditionally, `--until_done`
breaks when nothing happened. -/
def loopBreaks (o : LoopOpts) (didSomething : Bool) : Bool :=
  o.once || (o.until_done && !didSomething)

/-- Worker lines 90-93: the sleep performed after a tick that did not break
the loop.  The code sleeps only when nothing happened, for the tick interval
minus the elapsed time since the previous iteration, floored at zero. -/
def sleepAfterTick (didSomething : Bool) (tickDuration dt : ℚ) : ℚ :=
  if didSomething then 0 else max 0 (tickDuration - dt)

/-- The sleep behaviour the specification describes for the outer loop:
after a tick, sleep for the tick interval minus the elapsed tick duration,
floored at zero, with no condition on the tick result. -/
def specSleepAfterTick (tickDuration dt : ℚ) : ℚ :=
  max 0 (tickDuration - dt)

/-- Worker lines 79-95 as a fuel-indexed loop: tick `i` returns `ticks i`;
the loop breaks per `loopBreaks`.  Returns the number of ticks executed when
the loop exits within `fuel` iterations, `none` otherwise. -/
def runWorkerAux (o : LoopOpts) (ticks : Nat → Bool) : Nat → Nat → Option Nat
  | _, 0 => none
  | i, fuel + 1 =>
    if loopBreaks o (ticks i) then some (i + 1)
    else runWorkerAux o ticks (i + 1) fuel

/-- The outer loop started at tick 0. -/
def runWorker (o : LoopOpts) (ticks : Nat → Bool) (fuel : Nat) : Option Nat :=
  runWorkerAux o ticks 0 fuel

/-! ## Helper lemmas -/

lemma invalidateOrphanTasks_idem (reg : List TaskDef) (rows : List TaskExec) :
    invalidateOrphanTasks reg (invalidateOrphanTasks reg rows) =
      invalidateOrphanTasks reg rows := by
  induction rows with
  | nil => rfl
  | cons r t ih =>
    simp only [invalidateOrphanTasks, List.map_cons, List.cons.injEq] at ih ⊢
    refine ⟨?_, ih⟩
    by_cases h : r.state ≠ TaskState.invalid ∧ r.task_name ∉ taskKeys reg
    · rw [if_pos h, if_neg (by simp)]
    · rw [if_neg h, if_neg h]

lemma invalidateOrphanSchedules_idem (sreg : List ScheduleDef)
    (rows : List ScheduleExec) :
    invalidateOrphanSchedules sreg (invalidateOrphanSchedules sreg rows) =
      invalidateOrphanSchedules sreg rows := by
  induction rows with
  | nil => rfl
  | cons r t ih =>
    simp only [invalidateOrphanSchedules, List.map_cons, List.cons.injEq] at ih ⊢
    refine ⟨?_, ih⟩
    by_cases h : r.state ≠ ScheduleState.invalid ∧ r.name ∉ scheduleKeys sreg
    · rw [if_pos h, if_neg (by simp)]
    · rw [if_neg h, if_neg h]

lemma wakeTasks_idem (now : Nat) (rows : List TaskExec) :
    wakeTasks now (wakeTasks now rows) = wakeTasks now rows := by
  induction rows with
  | nil => rfl
  | cons r t ih =>
    simp only [wakeTasks, List.map_cons, List.cons.injEq] at ih ⊢
    refine ⟨?_, ih⟩
    by_cases h : r.state = TaskState.sleeping ∧ r.due ≤ now
    · rw [if_pos h, if_neg (by simp)]
    · rw [if_neg h, if_neg h]

lemma keyLE_refl (a : Int × Nat × Nat) : keyLE a a = true := by
  obtain ⟨p, d, c⟩ := a
  simp [keyLE]

lemma keyLE_trans (a b c : Int × Nat × Nat) (hab : keyLE a b = true)
    (hbc : keyLE b c = true) : keyLE a c = true := by
  obtain ⟨p, d, k⟩ := a
  obtain ⟨q, e, l⟩ := b
  obtain ⟨s, f, m⟩ := c
  simp only [keyLE, Bool.or_eq_true, Bool.and_eq_true, decide_eq_true_eq]
    at hab hbc ⊢
  omega

lemma keyLE_total (a b : Int × Nat × Nat) :
    keyLE a b = true ∨ keyLE b a = true := by
  obtain ⟨p, d, k⟩ := a
  obtain ⟨q, e, l⟩ := b
  simp only [keyLE, Bool.or_eq_true, Bool.and_eq_true, decide_eq_true_eq]
  omega

instance (reg : List TaskDef) : IsTotal TaskExec (claimLE reg) :=
  ⟨fun a b => keyLE_total (claimKey reg a) (claimKey reg b)⟩

instance (reg : List TaskDef) : IsTrans TaskExec (claimLE reg) :=
  ⟨fun a b c => keyLE_trans (claimKey reg a) (claimKey reg b) (claimKey reg c)⟩

lemma claimTask_of_eligible_nil (reg : List TaskDef) (o : WorkerOpts) (now : Nat)
    (rows : List TaskExec) (h : eligibleTasks reg o rows = []) :
    claimTask reg o now rows = (rows, none) := by
  simp [claimTask, h]

lemma claimTask_snd_none_iff (reg : List TaskDef) (o : WorkerOpts) (now : Nat)
    (rows : List TaskExec) :
    (claimTask reg o now rows).2 = none ↔ eligibleTasks reg o rows = [] := by
  constructor
  · intro h
    rcases he : eligibleTasks reg o rows with _ | ⟨a, l⟩
    · rfl
    · exfalso
      rcases hs : (eligibleTasks reg o rows).insertionSort (claimLE reg)
        with _ | ⟨b, m⟩
      · have hp := List.perm_insertionSort (claimLE reg) (eligibleTasks reg o rows)
        rw [hs, he] at hp
        exact absurd (List.perm_nil.mp hp.symm) (by simp)
      · simp [claimTask, hs] at h
  · intro h
    simp [claimTask, h]

lemma claimTask_some_inv (reg : List TaskDef) (o : WorkerOpts) (now : Nat)
    (rows ts : List TaskExec) (c : TaskExec)
    (h : claimTask reg o now rows = (ts, some c)) :
    ∃ r0, r0 ∈ eligibleTasks reg o rows ∧
      c = { r0 with started := some now, state := TaskState.processing } ∧
      (∀ x ∈ eligibleTasks reg o rows, claimLE reg r0 x) ∧
      ts = rows.map (fun x =>
        if x.id = r0.id then
          { x with started := some now, state := TaskState.processing }
        else x) := by
  rcases hs : (eligibleTasks reg o rows).insertionSort (claimLE reg)
    with _ | ⟨r, tl⟩
  · simp [claimTask, hs] at h
  · have hmem : r ∈ eligibleTasks reg o rows := by
      have hr : r ∈ (eligibleTasks reg o rows).insertionSort (claimLE reg) := by
        rw [hs]
        exact List.mem_cons_self r tl
      exact (List.mem_insertionSort (claimLE reg)).mp hr
    have hsorted := List.sorted_insertionSort (claimLE reg) (eligibleTasks reg o rows)
    rw [hs] at hsorted
    have hmin : ∀ x ∈ eligibleTasks reg o rows, claimLE reg r x := by
      intro x hx
      have hx2 : x ∈ (eligibleTasks reg o rows).insertionSort (claimLE reg) :=
        (List.mem_insertionSort (claimLE reg)).mpr hx
      rw [hs] at hx2
      rcases List.mem_cons.mp hx2 with rfl | hx3
      · exact keyLE_refl (claimKey reg x)
      · exact List.rel_of_sorted_cons hsorted x hx3
    simp only [claimTask, hs, List.head?_cons] at h
    have hts := congrArg Prod.fst h
    have hc := congrArg Prod.snd h
    simp only at hts hc
    exact ⟨r, hmem, (Option.some.inj hc).symm, hmin, hts.symm⟩

lemma forQueueT_name_mem_keys (reg : List TaskDef) (o : WorkerOpts) (n : String)
    (h : n ∈ (forQueueT reg o).map (fun t => t.name)) : n ∈ taskKeys reg := by
  obtain ⟨t, ht, rfl⟩ := List.mem_map.mp h
  have hreg : t ∈ reg := by
    unfold forQueueT at ht
    cases hq : o.queues with
    | some qs =>
      rw [hq] at ht
      exact (List.mem_filter.mp ht).1
    | none =>
      rw [hq] at ht
      cases hx : o.excluded_queues with
      | some xs =>
        rw [hx] at ht
        exact (List.mem_filter.mp ht).1
      | none =>
        rw [hx] at ht
        exact ht
  exact List.mem_map_of_mem _ hreg

lemma claimTask_name_registered (reg : List TaskDef) (o : WorkerOpts) (now : Nat)
    (rows ts : List TaskExec) (c : TaskExec)
    (h : claimTask reg o now rows = (ts, some c)) :
    c.task_name ∈ taskKeys reg := by
  obtain ⟨r0, hmem, hc, _, _⟩ := claimTask_some_inv reg o now rows ts c h
  have := (List.mem_filter.mp hmem).2
  simp only [decide_eq_true_eq] at this
  have hn : r0.task_name ∈ taskKeys reg := forQueueT_name_mem_keys reg o _ this.2
  rw [hc]
  exact hn

lemma loopBreaks_off (b : Bool) :
    loopBreaks { once := false, until_done := false } b = false := by
  simp [loopBreaks]

lemma runWorkerAux_forever (t : Nat → Bool) :
    ∀ fuel i, runWorkerAux { once := false, until_done := false } t i fuel = none := by
  intro fuel
  induction fuel with
  | zero => intro i; rfl
  | succ f ih =>
    intro i
    simp only [runWorkerAux, loopBreaks_off, Bool.false_eq_true, if_false]
    exact ih (i + 1)

lemma runWorkerAux_once (u : Bool) (t : Nat → Bool) (i fuel : Nat)
    (h : 1 ≤ fuel) :
    runWorkerAux { once := true, until_done := u } t i fuel = some (i + 1) := by
  cases fuel with
  | zero => omega
  | succ f => simp [runWorkerAux, loopBreaks]

lemma loopBreaks_until (b : Bool) :
    loopBreaks { once := false, until_done := true } b = !b := by
  simp [loopBreaks]

lemma runWorkerAux_until_sound (t : Nat → Bool) :
    ∀ fuel i k,
      runWorkerAux { once := false, until_done := true } t i fuel = some k →
      ∃ j, k = i + j + 1 ∧ t (i + j) = false ∧ ∀ m, m < j → t (i + m) = true := by
  intro fuel
  induction fuel with
  | zero => intro i k h; simp [runWorkerAux] at h
  | succ f ih =>
    intro i k h
    simp only [runWorkerAux, loopBreaks_until] at h
    by_cases hb : t i
    · rw [if_neg (by simp [hb])] at h
      obtain ⟨j, rfl, hf, hall⟩ := ih (i + 1) k h
      refine ⟨j + 1, by omega, by rw [show i + (j + 1) = i + 1 + j by omega]; exact hf, ?_⟩
      intro m hm
      cases m with
      | zero => simpa using hb
      | succ m =>
        rw [show i + (m + 1) = i + 1 + m by omega]
        exact hall m (by omega)
    · rw [if_pos (by simp [hb])] at h
      obtain rfl : i + 1 = k := by simpa using h
      refine ⟨0, by omega, by simpa using hb, by omega⟩

lemma runWorkerAux_until_complete (t : Nat → Bool) :
    ∀ j fuel i, j < fuel → t (i + j) = false → (∀ m, m < j → t (i + m) = true) →
      runWorkerAux { once := false, until_done := true } t i fuel = some (i + j + 1) := by
  intro j
  induction j with
  | zero =>
    intro fuel i hf h0 _
    cases fuel with
    | zero => omega
    | succ f =>
      simp only [runWorkerAux, loopBreaks_until]
      rw [if_pos (by simpa using h0)]
  | succ j ih =>
    intro fuel i hf hj hall
    cases fuel with
    | zero => omega
    | succ f =>
      simp only [runWorkerAux, loopBreaks_until]
      have h0 : t i = true := by simpa using hall 0 (by omega)
      rw [if_neg (by simp [h0])]
      have := ih f (i + 1) (by omega)
        (by rw [show i + 1 + j = i + (j + 1) by omega]; exact hj)
        (fun m hm => by
          rw [show i + 1 + m = i + (m + 1) by omega]
          exact hall (m + 1) (by omega))
      rw [this]
      congr 1
      omega

lemma claimTask_none_fst (reg : List TaskDef) (o : WorkerOpts) (now : Nat)
    (rows : List TaskExec) (h : (claimTask reg o now rows).2 = none) :
    (claimTask reg o now rows).1 = rows := by
  have he := (claimTask_snd_none_iff reg o now rows).mp h
  rw [claimTask_of_eligible_nil reg o now rows he]

lemma taskExecute_snd (td : TaskDef) (r : TaskExec) (rows : List TaskExec) :
    (taskExecute td r rows).2 = true := by
  unfold taskExecute
  cases td.run <;> rfl

lemma countP_map_update_le (g : TaskExec → TaskExec) (i : Nat)
    (p : TaskExec → Bool) :
    ∀ rows : List TaskExec, (rows.map (fun r => r.id)).Nodup →
      (rows.map (fun x => if x.id = i then g x else x)).countP p ≤
        rows.countP p + 1 := by
  intro rows
  induction rows with
  | nil => intro _; simp
  | cons a t ih =>
    intro hnd
    simp only [List.map_cons, List.nodup_cons, List.mem_map] at hnd
    obtain ⟨hna, hnt⟩ := hnd
    by_cases h : a.id = i
    · have ht : t.map (fun x => if x.id = i then g x else x) = t := by
        have hcongr : t.map (fun x => if x.id = i then g x else x) = t.map id := by
          apply List.map_congr_left
          intro x hx
          rw [if_neg]
          · rfl
          · intro hxi
            exact hna ⟨x, hx, by rw [hxi, h]⟩
        rw [hcongr, List.map_id]
      rw [List.map_cons, ht, if_pos h, List.countP_cons, List.countP_cons]
      split_ifs <;> omega
    · rw [List.map_cons, if_neg h, List.countP_cons, List.countP_cons]
      have := ih hnt
      split_ifs <;> omega

lemma taskExecute_error (td : TaskDef) (r : TaskExec) (rows : List TaskExec)
    (e : String) (h : td.run = Except.error e) :
    (taskExecute td r rows).1 = rows.map (fun x =>
      if x.id = r.id then
        { x with state := TaskState.failed, error := some e }
      else x) := by
  unfold taskExecute
  rw [h]

lemma tick_claimed_eq (reg : List TaskDef) (sreg : List ScheduleDef)
    (o : WorkerOpts) (now : Nat) (s : Store) :
    (tick reg sreg o now s).claimed =
      (claimTask reg o now (wakeTasks now
        (evaluateSchedules sreg o now (storeAfterOrphans reg sreg s)).1.tasks)).2 := by
  simp only [tick]
  split
  · rename_i heq
    exact heq.symm
  · rename_i r heq
    split
    · exact heq.symm
    · exact heq.symm

lemma tick_shape (reg : List TaskDef) (sreg : List ScheduleDef)
    (o : WorkerOpts) (now : Nat) (s : Store) :
    ((tick reg sreg o now s).claimed = none ∧
      (tick reg sreg o now s).executed = []) ∨
    (∃ r, (tick reg sreg o now s).claimed = some r ∧
      ((tick reg sreg o now s).executed = [] ∨
        (tick reg sreg o now s).executed = [r.task_name])) := by
  simp only [tick]
  split
  · exact Or.inl ⟨rfl, rfl⟩
  · rename_i r heq
    split
    · exact Or.inr ⟨r, rfl, Or.inr rfl⟩
    · exact Or.inr ⟨r, rfl, Or.inl rfl⟩

lemma tick_didSomething_eq (reg : List TaskDef) (sreg : List ScheduleDef)
    (o : WorkerOpts) (now : Nat) (s : Store) :
    (tick reg sreg o now s).didSomething =
      ((evaluateSchedules sreg o now (storeAfterOrphans reg sreg s)).2 ||
        !(tick reg sreg o now s).executed.isEmpty) := by
  simp only [tick]
  split
  · simp
  · split
    · simp [taskExecute_snd]
    · simp

lemma tick_store_of_claimed_some (reg : List TaskDef) (sreg : List ScheduleDef)
    (o : WorkerOpts) (now : Nat) (s : Store) (r : TaskExec) (td : TaskDef)
    (hclaim : (claimTask reg o now (wakeTasks now
      (evaluateSchedules sreg o now (storeAfterOrphans reg sreg s)).1.tasks)).2 =
      some r)
    (hfind : reg.find? (fun t => t.name == r.task_name) = some td) :
    (tick reg sreg o now s).store.tasks =
      (taskExecute td r (claimTask reg o now (wakeTasks now
        (evaluateSchedules sreg o now
          (storeAfterOrphans reg sreg s)).1.tasks)).1).1 ∧
    (tick reg sreg o now s).didSomething = true := by
  simp only [tick]
  split
  · rename_i heq
    have habs : (none : Option TaskExec) = some r := heq.symm.trans hclaim
    simp at habs
  · rename_i r' heq
    have hr : some r' = some r := heq.symm.trans hclaim
    obtain rfl := Option.some.inj hr
    split
    · rename_i td' hf
      have ht : some td' = some td := hf.symm.trans hfind
      obtain rfl := Option.some.inj ht
      exact ⟨rfl, by simp [taskExecute_snd]⟩
    · rename_i hf
      have habs : (none : Option TaskDef) = some td := hf.symm.trans hfind
      simp at habs

/-! ## Claims -/

/-- C5: for every tick the wake step transitions exactly the TaskExec rows
with state SLEEPING and due at or before now to QUEUED, positionally in one
bulk update, leaving every other row unchanged. -/
theorem C5_wake_exactly_due_sleeping (now : Nat) (rows : List TaskExec)
    (i : Nat) (r : TaskExec) (h : rows[i]? = some r) :
    (r.state = TaskState.sleeping ∧ r.due ≤ now →
      (wakeTasks now rows)[i]? = some { r with state := TaskState.queued }) ∧
    (¬ (r.state = TaskState.sleeping ∧ r.due ≤ now) →
      (wakeTasks now rows)[i]? = some r) := by
  constructor
  · intro hc
    simp only [wakeTasks, List.getElem?_map, h, Option.map_some']
    rw [if_pos hc]
  · intro hc
    simp only [wakeTasks, List.getElem?_map, h, Option.map_some']
    rw [if_neg hc]

/-- A SLEEPING row one second past due, used as the C5 witness input. -/
def wRowDue : TaskExec :=
  { id := 1, task_name := "t", state := TaskState.sleeping, due := 99, created := 0 }

/-- A SLEEPING row due one hour in the future, used as the C5 witness input. -/
def wRowFuture : TaskExec :=
  { id := 2, task_name := "t", state := TaskState.sleeping, due := 3700, created := 0 }

/-- C5 witness: at now = 100 the due row wakes and the future row stays. -/
theorem C5_wake_witness :
    (wakeTasks 100 [wRowDue, wRowFuture])[0]? =
      some { wRowDue with state := TaskState.queued } ∧
    (wakeTasks 100 [wRowDue, wRowFuture])[1]? = some wRowFuture :=
  ⟨(C5_wake_exactly_due_sleeping 100 [wRowDue, wRowFuture] 0 wRowDue rfl).1
      (by constructor <;> decide),
   (C5_wake_exactly_due_sleeping 100 [wRowDue, wRowFuture] 1 wRowFuture rfl).2
      (by intro hc; exact absurd hc.2 (by decide))⟩

/-- C8: the two orphan-invalidation bulk updates and the sleep-wake bulk
update are idempotent: a second immediate application with the same registry
and the same now changes nothing and yields the same store state. -/
theorem C8_bulk_updates_idempotent (reg : List TaskDef) (sreg : List ScheduleDef)
    (now : Nat) (rows : List TaskExec) (srows : List ScheduleExec) :
    invalidateOrphanTasks reg (invalidateOrphanTasks reg rows) =
      invalidateOrphanTasks reg rows ∧
    invalidateOrphanSchedules sreg (invalidateOrphanSchedules sreg srows) =
      invalidateOrphanSchedules sreg srows ∧
    wakeTasks now (wakeTasks now rows) = wakeTasks now rows :=
  ⟨invalidateOrphanTasks_idem reg rows,
   invalidateOrphanSchedules_idem sreg srows,
   wakeTasks_idem now rows⟩

/-- C7 counterexample: after a tick that did something, with tick interval
10 and zero elapsed time, the code sleeps 0 while the claim prescribes a
sleep of the interval minus the elapsed time, that is 10. -/
theorem C7_counterexample_no_sleep_when_busy :
    sleepAfterTick true 10 0 = 0 ∧ specSleepAfterTick 10 0 = 10 ∧
    sleepAfterTick true 10 0 ≠ specSleepAfterTick 10 0 := by
  refine ⟨rfl, ?_, ?_⟩ <;> norm_num [sleepAfterTick, specSleepAfterTick]

/-- C7 amended: only after a tick that reported nothing happened does the
loop sleep for the tick interval minus the elapsed duration floored at zero;
after a tick that did something it starts the next tick with no sleep. -/
theorem C7_sleep_only_when_idle (tickDuration dt : ℚ) :
    sleepAfterTick false tickDuration dt = specSleepAfterTick tickDuration dt ∧
    sleepAfterTick true tickDuration dt = 0 := by
  constructor <;> simp [sleepAfterTick, specSleepAfterTick]

/-- C6: the outer loop has exactly three termination modes: with `--once`
it exits after exactly one tick whatever the tick returned; with
`--until_done` it exits exactly after the first tick that reports nothing
happened; with neither option it never exits on its own. -/
theorem C6_termination_modes (ticks : Nat → Bool) (fuel : Nat) :
    (∀ u : Bool, 1 ≤ fuel →
      runWorker { once := true, until_done := u } ticks fuel = some 1) ∧
    (∀ k, runWorker { once := false, until_done := true } ticks fuel = some k →
      1 ≤ k ∧ ticks (k - 1) = false ∧ ∀ m, m < k - 1 → ticks m = true) ∧
    (∀ n, n < fuel → ticks n = false → (∀ m, m < n → ticks m = true) →
      runWorker { once := false, until_done := true } ticks fuel = some (n + 1)) ∧
    runWorker { once := false, until_done := false } ticks fuel = none := by
  refine ⟨?_, ?_, ?_, ?_⟩
  · intro u h
    simpa [runWorker] using runWorkerAux_once u ticks 0 fuel h
  · intro k h
    obtain ⟨j, rfl, hf, hall⟩ := runWorkerAux_until_sound ticks fuel 0 k h
    refine ⟨by omega, ?_, ?_⟩
    · simpa using hf
    · intro m hm
      simpa using hall m (by omega)
  · intro n hn hf hall
    simpa [runWorker] using
      runWorkerAux_until_complete ticks n fuel 0 hn (by simpa using hf)
        (fun m hm => by simpa using hall m hm)
  · exact runWorkerAux_forever ticks fuel 0

/-- C6 witness: with `--once` a loop over always-busy ticks stops after one
tick; with `--until_done` and ticks busy twice then idle it stops after the
third tick; with neither option the loop never exits within the fuel. -/
theorem C6_termination_witness :
    runWorker { once := true, until_done := false } (fun _ => true) 3 = some 1 ∧
    runWorker { once := false, until_done := true } (fun n => decide (n < 2)) 5 =
      some 3 ∧
    runWorker { once := false, until_done := false } (fun _ => false) 4 = none :=
  ⟨(C6_termination_modes (fun _ => true) 3).1 false (by norm_num),
   (C6_termination_modes (fun n => decide (n < 2)) 5).2.2.1 2 (by norm_num)
     (by decide) (fun m hm => by simpa using hm),
   (C6_termination_modes (fun _ => false) 4).2.2.2⟩

/-- C1: the Task Claimer considers exactly the rows with state QUEUED whose
task name belongs to a registered definition passing the queue filter,
orders them by descending definition priority (unknown priority sorting
as 0) then ascending due then ascending created — captured by minimality of
the picked row for `claimLE` — and persists `started := now` and
`state := PROCESSING` on that single row; with no eligible row, no row is
modified. -/
theorem C1_claimer_selects_orders_and_claims (reg : List TaskDef)
    (o : WorkerOpts) (now : Nat) (rows : List TaskExec) :
    (∀ r, r ∈ eligibleTasks reg o rows ↔
      r ∈ rows ∧ r.state = TaskState.queued ∧
        r.task_name ∈ (forQueueT reg o).map (fun t => t.name)) ∧
    (eligibleTasks reg o rows = [] → claimTask reg o now rows = (rows, none)) ∧
    (∀ ts c, claimTask reg o now rows = (ts, some c) →
      ∃ r0, r0 ∈ eligibleTasks reg o rows ∧
        c = { r0 with started := some now, state := TaskState.processing } ∧
        (∀ x ∈ eligibleTasks reg o rows, claimLE reg r0 x) ∧
        ts = rows.map (fun x =>
          if x.id = r0.id then
            { x with started := some now, state := TaskState.processing }
          else x) ∧
        (∀ x ∈ rows, x.id ≠ r0.id → x ∈ ts)) := by
  refine ⟨?_, claimTask_of_eligible_nil reg o now rows, ?_⟩
  · intro r
    constructor
    · intro hr
      have h1 := (List.mem_filter.mp hr).1
      have h2 := (List.mem_filter.mp hr).2
      simp only [decide_eq_true_eq] at h2
      exact ⟨h1, h2.1, h2.2⟩
    · intro hr
      refine List.mem_filter.mpr ⟨hr.1, ?_⟩
      simp only [decide_eq_true_eq]
      exact ⟨hr.2.1, hr.2.2⟩
  · intro ts c h
    obtain ⟨r0, hmem, hc, hmin, hts⟩ := claimTask_some_inv reg o now rows ts c h
    refine ⟨r0, hmem, hc, hmin, hts, ?_⟩
    intro x hx hne
    rw [hts]
    have hfx := List.mem_map_of_mem (fun x =>
      if x.id = r0.id then
        { x with started := some now, state := TaskState.processing }
      else x) hx
    simpa [hne] using hfx

/-- Registry used by the C1 witness: two tasks on queue q, the second one
with the higher priority. -/
def regW1 : List TaskDef :=
  [{ name := "a", priority := 1, queue := "q", run := Except.ok "x" },
   { name := "b", priority := 5, queue := "q", run := Except.ok "y" }]

/-- First row of the C1 witness store: queued, low-priority task. -/
def rW1a : TaskExec :=
  { id := 1, task_name := "a", state := TaskState.queued, due := 0, created := 0 }

/-- Second row of the C1 witness store: queued, high-priority task. -/
def rW1b : TaskExec :=
  { id := 2, task_name := "b", state := TaskState.queued, due := 5, created := 1 }

/-- The row the C1 witness expects to be claimed: the high-priority row,
stamped as started at 100 and PROCESSING. -/
def cW1 : TaskExec :=
  { id := 2, task_name := "b", state := TaskState.processing, due := 5,
    created := 1, started := some 100 }

/-- C1 witness: on a concrete store the claimer picks the higher-priority
row even though it is younger and later due, the picked row dominates the
other eligible row in the ordering, and the untouched row survives. -/
theorem C1_claimer_witness :
    cW1.state = TaskState.processing ∧ cW1.started = some 100 ∧
    claimLE regW1 cW1 rW1a ∧ rW1a ∈ (claimTask regW1 {} 100 [rW1a, rW1b]).1 := by
  obtain ⟨r0, hmem, hc, hmin, hts, hother⟩ :=
    (C1_claimer_selects_orders_and_claims regW1 {} 100 [rW1a, rW1b]).2.2
      [rW1a, cW1] cW1 (by decide)
  have hr0 : r0 ∈ [rW1a, rW1b] :=
    (((C1_claimer_selects_orders_and_claims regW1 {} 100 [rW1a, rW1b]).1 r0).mp
      hmem).1
  rcases List.mem_cons.mp hr0 with h1 | h1
  · exfalso
    rw [h1] at hc
    exact absurd hc (by decide)
  · rcases List.mem_cons.mp h1 with h2 | h2
    · subst h2
      refine ⟨by rw [hc], by rw [hc], ?_, hother rW1a (by decide) (by decide)⟩
      rw [hc]
      exact hmin rW1a (by decide)
    · simp at h2

/-- C3: after the Orphan Reconciler phase every TaskExec row whose task
name is not registered has state INVALID (it is newly invalidated when it
was not INVALID, and kept as is when it already was), rows with a
registered name are untouched, symmetrically for ScheduleExec rows against
the schedule registry, and a claimed row always carries a registered task
name, so orphaned rows are never claimed. -/
theorem C3_orphans_invalidated_and_never_claimed (reg : List TaskDef)
    (sreg : List ScheduleDef) (rows : List TaskExec)
    (srows : List ScheduleExec) :
    (∀ (i : Nat) (r : TaskExec), rows[i]? = some r →
      (r.state ≠ TaskState.invalid ∧ r.task_name ∉ taskKeys reg →
        (invalidateOrphanTasks reg rows)[i]? =
          some { r with state := TaskState.invalid }) ∧
      (r.state = TaskState.invalid → (invalidateOrphanTasks reg rows)[i]? = some r) ∧
      (r.task_name ∈ taskKeys reg → (invalidateOrphanTasks reg rows)[i]? = some r)) ∧
    (∀ (i : Nat) (r : ScheduleExec), srows[i]? = some r →
      (r.state ≠ ScheduleState.invalid ∧ r.name ∉ scheduleKeys sreg →
        (invalidateOrphanSchedules sreg srows)[i]? =
          some { r with state := ScheduleState.invalid }) ∧
      (r.state = ScheduleState.invalid →
        (invalidateOrphanSchedules sreg srows)[i]? = some r) ∧
      (r.name ∈ scheduleKeys sreg →
        (invalidateOrphanSchedules sreg srows)[i]? = some r)) ∧
    (∀ (o : WorkerOpts) (now : Nat) (rows2 ts : List TaskExec) (c : TaskExec),
      claimTask reg o now rows2 = (ts, some c) → c.task_name ∈ taskKeys reg) := by
  refine ⟨?_, ?_, fun o now rows2 ts c h => claimTask_name_registered reg o now rows2 ts c h⟩
  · intro i r h
    refine ⟨fun hc => ?_, fun hc => ?_, fun hc => ?_⟩
    · simp only [invalidateOrphanTasks, List.getElem?_map, h, Option.map_some']
      rw [if_pos hc]
    · simp only [invalidateOrphanTasks, List.getElem?_map, h, Option.map_some']
      rw [if_neg (by simp [hc])]
    · simp only [invalidateOrphanTasks, List.getElem?_map, h, Option.map_some']
      rw [if_neg (by simp [hc])]
  · intro i r h
    refine ⟨fun hc => ?_, fun hc => ?_, fun hc => ?_⟩
    · simp only [invalidateOrphanSchedules, List.getElem?_map, h, Option.map_some']
      rw [if_pos hc]
    · simp only [invalidateOrphanSchedules, List.getElem?_map, h, Option.map_some']
      rw [if_neg (by simp [hc])]
    · simp only [invalidateOrphanSchedules, List.getElem?_map, h, Option.map_some']
      rw [if_neg (by simp [hc])]

/-- The single task definition of the C3 and C4 witness registry. -/
def tdW3 : TaskDef :=
  { name := "t", priority := 0, queue := "q", run := Except.ok "r" }

/-- Registry used by the C3 and C4 witnesses: a single task named t. -/
def regW3 : List TaskDef := [tdW3]

/-- Orphan queued row of the C3 witness store. -/
def rW3a : TaskExec :=
  { id := 1, task_name := "ghost", state := TaskState.queued, due := 0, created := 0 }

/-- Registered queued row of the C3 witness store. -/
def rW3b : TaskExec :=
  { id := 2, task_name := "t", state := TaskState.queued, due := 0, created := 0 }

/-- Already invalid orphan row of the C3 witness store. -/
def rW3c : TaskExec :=
  { id := 3, task_name := "ghost2", state := TaskState.invalid, due := 0, created := 0 }

/-- The row the C3 witness expects the claimer to claim. -/
def cW3 : TaskExec :=
  { id := 2, task_name := "t", state := TaskState.processing, due := 0,
    created := 0, started := some 7 }

/-- C3 witness: on a concrete store the orphan row is invalidated, the
registered row and the already invalid row are untouched, and the row the
claimer picks carries a registered name. -/
theorem C3_orphans_witness :
    (invalidateOrphanTasks regW3 [rW3a, rW3b, rW3c])[0]? =
      some { rW3a with state := TaskState.invalid } ∧
    (invalidateOrphanTasks regW3 [rW3a, rW3b, rW3c])[1]? = some rW3b ∧
    (invalidateOrphanTasks regW3 [rW3a, rW3b, rW3c])[2]? = some rW3c ∧
    cW3.task_name ∈ taskKeys regW3 := by
  have h := C3_orphans_invalidated_and_never_claimed regW3 [] [rW3a, rW3b, rW3c] []
  refine ⟨?_, ?_, ?_, ?_⟩
  · exact (h.1 0 rW3a rfl).1 (by decide)
  · exact (h.1 1 rW3b rfl).2.2 (by decide)
  · exact (h.1 2 rW3c rfl).2.1 (by decide)
  · exact h.2.2 {} 7 [rW3a, rW3b, rW3c] [rW3a, cW3, rW3c] cW3 (by decide)

/-- C2: per tick at most one TaskExec transitions to PROCESSING — the
claimer updates at most the single top row, given distinct primary keys —
and at most one task callable runs, only for the claimed row. -/
theorem C2_at_most_one_claim_and_execution (reg : List TaskDef)
    (sreg : List ScheduleDef) (o : WorkerOpts) (now : Nat) (s : Store)
    (rows : List TaskExec) (hids : (rows.map (fun r => r.id)).Nodup) :
    (claimTask reg o now rows).1.countP
        (fun x => decide (x.state = TaskState.processing)) ≤
      rows.countP (fun x => decide (x.state = TaskState.processing)) + 1 ∧
    (tick reg sreg o now s).executed.length ≤ 1 ∧
    ((tick reg sreg o now s).claimed = none →
      (tick reg sreg o now s).executed = []) ∧
    (∀ r, (tick reg sreg o now s).claimed = some r →
      (tick reg sreg o now s).executed = [] ∨
        (tick reg sreg o now s).executed = [r.task_name]) := by
  have hshape := tick_shape reg sreg o now s
  refine ⟨?_, ?_, ?_, ?_⟩
  · rcases hc : (claimTask reg o now rows).2 with _ | c
    · rw [claimTask_none_fst reg o now rows hc]
      omega
    · have hpair : claimTask reg o now rows =
          ((claimTask reg o now rows).1, some c) := by
        rw [← hc]
      obtain ⟨r0, _, _, _, hts⟩ := claimTask_some_inv reg o now rows
        (claimTask reg o now rows).1 c hpair
      rw [hts]
      exact countP_map_update_le _ r0.id _ rows hids
  · rcases hshape with ⟨_, he⟩ | ⟨r, _, he | he⟩ <;> simp [he]
  · intro hn
    rcases hshape with ⟨_, he⟩ | ⟨r, hcl, _⟩
    · exact he
    · rw [hn] at hcl
      exact absurd hcl (by simp)
  · intro r hr
    rcases hshape with ⟨hcl, _⟩ | ⟨r', hcl, he⟩
    · rw [hr] at hcl
      exact absurd hcl (by simp)
    · obtain rfl : r = r' := Option.some.inj (hr.symm.trans hcl)
      exact he

/-- C2 witness: on a concrete two-row store the claim phase creates at most
one PROCESSING row and the tick executes at most one callable. -/
theorem C2_witness :
    (claimTask regW1 {} 100 [rW1a, rW1b]).1.countP
        (fun x => decide (x.state = TaskState.processing)) ≤
      [rW1a, rW1b].countP
        (fun x => decide (x.state = TaskState.processing)) + 1 ∧
    (tick regW1 [] {} 100 ⟨[rW1a, rW1b], [], 10⟩).executed.length ≤ 1 :=
  ⟨(C2_at_most_one_claim_and_execution regW1 [] {} 100 ⟨[rW1a, rW1b], [], 10⟩
      [rW1a, rW1b] (by decide)).1,
   (C2_at_most_one_claim_and_execution regW1 [] {} 100 ⟨[rW1a, rW1b], [], 10⟩
      [rW1a, rW1b] (by decide)).2.1⟩

/-- C4: the tick phases run in the fixed order orphan reconciliation,
schedule evaluation, wake, claim, execute: the row claimed by a tick is
exactly what the claimer yields on the store taken through orphans, then
schedules, then wake; a claim happens precisely when that store has an
eligible row; the claimed row always carries a registered name (so no claim
precedes orphan marking); and the executor acts after the claim, on the
claimed store, for the claimed row. -/
theorem C4_phase_order (reg : List TaskDef) (sreg : List ScheduleDef)
    (o : WorkerOpts) (now : Nat) (s : Store) :
    ((tick reg sreg o now s).claimed =
      (claimTask reg o now (wakeTasks now
        (evaluateSchedules sreg o now (storeAfterOrphans reg sreg s)).1.tasks)).2) ∧
    ((tick reg sreg o now s).claimed = none ↔
      eligibleTasks reg o (wakeTasks now
        (evaluateSchedules sreg o now (storeAfterOrphans reg sreg s)).1.tasks) = []) ∧
    (∀ r, (tick reg sreg o now s).claimed = some r →
      r.task_name ∈ taskKeys reg) ∧
    (∀ r td, (tick reg sreg o now s).claimed = some r →
      reg.find? (fun t => t.name == r.task_name) = some td →
      (tick reg sreg o now s).store.tasks =
        (taskExecute td r (claimTask reg o now (wakeTasks now
          (evaluateSchedules sreg o now
            (storeAfterOrphans reg sreg s)).1.tasks)).1).1) := by
  have hcl := tick_claimed_eq reg sreg o now s
  refine ⟨hcl, ?_, ?_, ?_⟩
  · rw [hcl]
    exact claimTask_snd_none_iff reg o now _
  · intro r hr
    rw [hcl] at hr
    have hpair : claimTask reg o now (wakeTasks now
        (evaluateSchedules sreg o now (storeAfterOrphans reg sreg s)).1.tasks) =
        ((claimTask reg o now (wakeTasks now
          (evaluateSchedules sreg o now
            (storeAfterOrphans reg sreg s)).1.tasks)).1, some r) := by
      rw [← hr]
    exact claimTask_name_registered reg o now _ _ r hpair
  · intro r td hr hf
    rw [hcl] at hr
    exact (tick_store_of_claimed_some reg sreg o now s r td hr hf).1

/-- The store of the C4 witness: a single registered queued row. -/
def sW4 : Store := ⟨[rW3b], [], 10⟩

/-- C4 witness: on a concrete store the tick claims the registered row and
the final store is the executor output on the claimed store. -/
theorem C4_witness :
    cW3.task_name ∈ taskKeys regW3 ∧
    (tick regW3 [] {} 7 sW4).store.tasks = (taskExecute tdW3 cW3 [cW3]).1 := by
  have h := C4_phase_order regW3 [] {} 7 sW4
  refine ⟨h.2.2.1 cW3 (by decide), ?_⟩
  have hst := h.2.2.2 cW3 tdW3 (by decide) (by decide)
  rw [hst]
  have hts : (claimTask regW3 {} 7 (wakeTasks 7
      (evaluateSchedules [] {} 7 (storeAfterOrphans regW3 [] sW4)).1.tasks)).1 =
      [cW3] := by decide
  rw [hts]

/-- C9: when the claimed task callable raises, the failure is captured on
the claimed row as state FAILED with the failure detail, the tick still
returns normally with did-something true, and the continuous-mode loop does
not break, so the next tick proceeds. -/
theorem C9_task_failure_captured (reg : List TaskDef) (sreg : List ScheduleDef)
    (o : WorkerOpts) (now : Nat) (s : Store) (ts : List TaskExec)
    (r : TaskExec) (td : TaskDef) (e : String)
    (hclaim : claimTask reg o now (wakeTasks now
      (evaluateSchedules sreg o now (storeAfterOrphans reg sreg s)).1.tasks) =
      (ts, some r))
    (hfind : reg.find? (fun t => t.name == r.task_name) = some td)
    (hrun : td.run = Except.error e) :
    (tick reg sreg o now s).didSomething = true ∧
    { r with state := TaskState.failed, error := some e } ∈
      (tick reg sreg o now s).store.tasks ∧
    loopBreaks { once := false, until_done := false }
      (tick reg sreg o now s).didSomething = false := by
  have hc2 : (claimTask reg o now (wakeTasks now
      (evaluateSchedules sreg o now (storeAfterOrphans reg sreg s)).1.tasks)).2 =
      some r := by rw [hclaim]
  obtain ⟨hstore, hdid⟩ := tick_store_of_claimed_some reg sreg o now s r td hc2 hfind
  refine ⟨hdid, ?_, loopBreaks_off _⟩
  rw [hstore]
  have hts1 : (claimTask reg o now (wakeTasks now
      (evaluateSchedules sreg o now (storeAfterOrphans reg sreg s)).1.tasks)).1 =
      ts := by rw [hclaim]
  rw [hts1, taskExecute_error td r ts e hrun]
  obtain ⟨r0, hmem0, hc0, _, htsmap⟩ := claimTask_some_inv reg o now _ ts r hclaim
  have hr0rows := (List.mem_filter.mp hmem0).1
  have hrts : r ∈ ts := by
    rw [htsmap, hc0]
    have hm := List.mem_map_of_mem (fun x =>
      if x.id = r0.id then
        { x with started := some now, state := TaskState.processing }
      else x) hr0rows
    simpa using hm
  have hm2 := List.mem_map_of_mem (fun x =>
    if x.id = r.id then
      { x with state := TaskState.failed, error := some e }
    else x) hrts
  simpa using hm2

/-- The failing task definition of the C9 witness. -/
def tdW9 : TaskDef :=
  { name := "f", priority := 0, queue := "q", run := Except.error "boom" }

/-- Registry of the C9 witness. -/
def regW9 : List TaskDef := [tdW9]

/-- The queued row of the C9 witness. -/
def rW9 : TaskExec :=
  { id := 1, task_name := "f", state := TaskState.queued, due := 0, created := 0 }

/-- Store of the C9 witness. -/
def sW9 : Store := ⟨[rW9], [], 5⟩

/-- The C9 witness row as claimed at time 3. -/
def cW9 : TaskExec :=
  { id := 1, task_name := "f", state := TaskState.processing, due := 0,
    created := 0, started := some 3 }

/-- C9 witness: on a concrete store with a failing callable the tick
reports did-something and stores the row as FAILED with detail boom. -/
theorem C9_witness :
    (tick regW9 [] {} 3 sW9).didSomething = true ∧
    { cW9 with state := TaskState.failed, error := some "boom" } ∈
      (tick regW9 [] {} 3 sW9).store.tasks :=
  have h := C9_task_failure_captured regW9 [] {} 3 sW9 [cW9] cW9 tdW9 "boom"
    (by decide) (by decide) (by decide)
  ⟨h.1, h.2.1⟩

/-- Registry of the C10 scenario: one task on the excluded queue slow. -/
def regC10 : List TaskDef :=
  [{ name := "t", priority := 0, queue := "slow", run := Except.ok "r" }]

/-- Worker options of the C10 scenario: queue slow excluded. -/
def oC10 : WorkerOpts := { excluded_queues := some ["slow"] }

/-- Orphan queued row of the C10 scenario. -/
def rC10ghost : TaskExec :=
  { id := 1, task_name := "ghost", state := TaskState.queued, due := 0, created := 0 }

/-- Sleeping past-due row of the C10 scenario, on the excluded queue task. -/
def rC10sleep : TaskExec :=
  { id := 2, task_name := "t", state := TaskState.sleeping, due := 50, created := 0 }

/-- Store of the C10 scenario. -/
def sC10 : Store := ⟨[rC10ghost, rC10sleep], [], 10⟩

/-- C10: the did-something flag a tick returns is the disjunction of the
schedule-evaluation results and the task-execution result only; orphan
invalidation and waking set nothing, so a tick that only marks an orphan
and only wakes a task it cannot claim returns false, and in run-until-idle
mode such a tick stops the worker after one iteration. -/
theorem C10_did_something_sources (reg : List TaskDef) (sreg : List ScheduleDef)
    (o : WorkerOpts) (now : Nat) (s : Store) :
    ((tick reg sreg o now s).didSomething =
      ((evaluateSchedules sreg o now (storeAfterOrphans reg sreg s)).2 ||
        !(tick reg sreg o now s).executed.isEmpty)) ∧
    (tick regC10 [] oC10 100 sC10).didSomething = false ∧
    (tick regC10 [] oC10 100 sC10).store.tasks =
      [{ rC10ghost with state := TaskState.invalid },
       { rC10sleep with state := TaskState.queued }] ∧
    runWorker { once := false, until_done := true }
      (fun _ => (tick regC10 [] oC10 100 sC10).didSomething) 5 = some 1 :=
  ⟨tick_didSomething_eq reg sreg o now s, by decide, by decide, by decide⟩

end ToosimpleQ
